import Mathlib

/-!
# Verification of the `buscador_archivos` indexing and search engine

Shallow embedding of the core of the repository: the background indexer
(`Buscador.indexar_unidad_ultra_optimizado`), the two inverted indexes
(`indice_nombres`, `indice_extensiones`, Python `defaultdict(list)`
dictionaries modelled as insertion-ordered association lists), the query
classifier and dispatcher (`_detectar_tipo_busqueda`,
`_ejecutar_busqueda_diferida`), the three search strategies, the content
decoder factory (`lectores.py`) and the search history
(`GestorHistorial.py`).

Conventions of the embedding:
* Python strings are Lean `String`s; `str.lower`, `str.strip`,
  `str.startswith`, slicing `s[1:]` and the substring test `x in y` are
  re-implemented below on `List Char` (`pyLower`, `pyStrip`,
  `pyStartsWith`, `pySlice1`, `pyIn`) so that everything evaluates inside
  the kernel.
* File-system interaction sits at the embedding boundary: the sequence of
  `(root, files)` pairs produced by `os.walk` (after the in-place pruning
  of the system-directory denylist, which only controls descent) is a
  parameter `walk`, and the cooperative cancellation flag
  `self.cancelar_indexacion` is a parameter `cancel : Nat → Bool` giving
  the value the flag holds at the n-th poll of the run.
* Exceptions of external libraries (file reads, PDF/DOCX/XLSX/PPTX
  parsers, codec errors) are modelled as `Option`-valued oracles in `Env`;
  the `try/except` handlers of the code become `Option` matches.
-/

/-- Python `str.lower` on one character (ASCII range, as exercised by the
program's inputs). -/
def pyLowerChar (c : Char) : Char := c.toLower

/-- Python `str.lower`. -/
def pyLower (s : String) : String := String.mk (s.toList.map pyLowerChar)

/-- Whitespace characters stripped by Python `str.strip()`. -/
def pyWs (c : Char) : Bool :=
  c = ' ' || c = '\t' || c = '\n' || c = '\r' || c = '\x0b' || c = '\x0c'

/-- Python `str.strip()`. -/
def pyStrip (s : String) : String :=
  String.mk (((s.toList.dropWhile pyWs).reverse.dropWhile pyWs).reverse)

/-- Python `str.startswith(pre)`. -/
def pyStartsWith (s pre : String) : Bool := pre.toList.isPrefixOf s.toList

/-- Python slice `s[1:]`. -/
def pySlice1 (s : String) : String := String.mk (s.toList.drop 1)

/-- `subList n h = true` iff `n` occurs as a contiguous sublist of `h`. -/
def subList (agujas : List Char) : List Char → Bool
  | [] => agujas.isEmpty
  | c :: resto => agujas.isPrefixOf (c :: resto) || subList agujas resto

/-- Python substring test `aguja in pajar`. -/
def pyIn (aguja pajar : String) : Bool := subList aguja.toList pajar.toList

/-- Index of the last element satisfying `p`, if any. -/
def lastIndexOf (p : Char → Bool) : List Char → Option Nat
  | [] => none
  | c :: resto =>
    match lastIndexOf p resto with
    | some i => some (i + 1)
    | none => if p c then some 0 else none

/-- `os.path.splitext` (Windows flavour: both `\` and `/` are separators).
The extension starts at the last dot of the base name, provided some
non-dot character of the base name precedes it (leading dots are part of
the root, as in `.bashrc`). -/
def splitext (s : String) : String × String :=
  let cs := s.toList
  let inicio : Nat :=
    match lastIndexOf (fun c => c = '\\' || c = '/') cs with
    | none => 0
    | some i => i + 1
  match lastIndexOf (fun c => c = '.') cs with
  | none => (s, "")
  | some d =>
    if inicio ≤ d then
      if ((cs.drop inicio).take (d - inicio)).any (fun c => c ≠ '.') then
        (String.mk (cs.take d), String.mk (cs.drop d))
      else (s, "")
    else (s, "")

/-- `os.path.join(root, name)`; ntpath drive-letter subtleties are
abstracted to separator concatenation (no claim depends on the exact path
text). -/
def joinPath (a b : String) : String := a ++ "\\" ++ b

/-- One entry of the file collection `todos_los_archivos`: the dictionary
`{'nombre': ..., 'ruta': ..., 'extension': ...}` built per file by
`indexar_unidad_ultra_optimizado`. -/
structure Archivo where
  nombre : String
  ruta : String
  extension : String
deriving Repr, DecidableEq

/-- Inhabitant used with `List.getD`. -/
def archivoDefault : Archivo := ⟨"", "", ""⟩

/-- A Python `defaultdict(list)` from strings to lists of positions,
modelled as an association list in key-insertion order (the order
`dict.items()` iterates). -/
abbrev Indice := List (String × List Nat)

/-- `d[k].append(v)` on a `defaultdict(list)`: appends to the first entry
holding key `k`, or appends a fresh entry at the end. -/
def dictAppend (d : Indice) (k : String) (v : Nat) : Indice :=
  match d with
  | [] => [(k, [v])]
  | (k', vs) :: resto =>
    if k' = k then (k', vs ++ [v]) :: resto else (k', vs) :: dictAppend resto k v

/-- `d.get(k, [])`. -/
def dictGet (d : Indice) (k : String) : List Nat :=
  match d with
  | [] => []
  | (k', vs) :: resto => if k' = k then vs else dictGet resto k

/-- The triple of shared structures: `self.todos_los_archivos`,
`self.indice_nombres`, `self.indice_extensiones`. -/
structure SharedState where
  todos_los_archivos : List Archivo
  indice_nombres : Indice
  indice_extensiones : Indice
deriving Repr, DecidableEq

/-- The cleared state installed by `seleccionar_unidad` before an indexing
run starts. -/
def estadoVacio : SharedState := ⟨[], [], []⟩

/-- NameIndex key of a file name: `os.path.splitext(nombre)[0].lower()`. -/
def stemOf (nombre : String) : String := pyLower (splitext nombre).1

/-- Extension of a file name: `os.path.splitext(nombre)[1].lower()`. -/
def extOf (nombre : String) : String := pyLower (splitext nombre).2

/-- NameIndex key of a record. -/
def claveNombre (a : Archivo) : String := stemOf a.nombre

/-- Body of the per-file block of `indexar_unidad_ultra_optimizado`
(lines 417-434 of `Buscador.py`): build the record, append it to the
temporary collection and insert its position into both temporary
indexes. -/
def procesarArchivo (root nombre : String) (st : SharedState) : SharedState :=
  let extension := extOf nombre
  let ruta := joinPath root nombre
  let archivo : Archivo := ⟨nombre, ruta, extension⟩
  let indice := st.todos_los_archivos.length
  let nombre_sin_ext := stemOf nombre
  ⟨st.todos_los_archivos ++ [archivo],
   dictAppend st.indice_nombres nombre_sin_ext indice,
   dictAppend st.indice_extensiones extension indice⟩

/-- Processing of one `os.walk` triple, ignoring cancellation. -/
def pasoDirectorio (st : SharedState) (entrada : String × List String) : SharedState :=
  entrada.2.foldl (fun s f => procesarArchivo entrada.1 f s) st

/-- The generation a walk produces when no cancellation is observed. -/
def buildGen (walk : List (String × List String)) : SharedState :=
  walk.foldl pasoDirectorio estadoVacio

/-- Inner file loop of the indexer: polls `self.cancelar_indexacion`
before each file (`None` = early `return` on cancellation).  The `Nat`
threads the number of polls performed so far. -/
def indexarArchivos (cancel : Nat → Bool) (root : String) :
    List String → Nat → SharedState → Option (Nat × SharedState)
  | [], n, st => some (n, st)
  | f :: fs, n, st =>
    if cancel n then none
    else indexarArchivos cancel root fs (n + 1) (procesarArchivo root f st)

/-- Directory loop of the indexer: polls the flag at each directory
boundary, then runs the file loop. -/
def indexarWalk (cancel : Nat → Bool) :
    List (String × List String) → Nat → SharedState → Option (Nat × SharedState)
  | [], n, st => some (n, st)
  | (root, files) :: resto, n, st =>
    if cancel n then none
    else
      match indexarArchivos cancel root files (n + 1) st with
      | none => none
      | some (n', st') => indexarWalk cancel resto n' st'

/-- `indexar_unidad_ultra_optimizado` (Buscador.py lines 382-457): builds
temporary structures, and only if the walk finished and the final
`if not self.cancelar_indexacion` check passes are the three structures
swapped into shared state under `lock_indexacion` and the
`indexacion_completa` event emitted with the total count.  Returns the
shared state after the run and the optional completion event payload. -/
def indexar_unidad (cancel : Nat → Bool) (walk : List (String × List String))
    (compartido : SharedState) : SharedState × Option Nat :=
  match indexarWalk cancel walk 0 estadoVacio with
  | none => (compartido, none)
  | some (n, gen) =>
    if cancel n then (compartido, none)
    else (gen, some gen.todos_los_archivos.length)

/-- Ordered insertion into a duplicate-free ascending list of naturals. -/
def insertarOrdenado (x : Nat) : List Nat → List Nat
  | [] => [x]
  | y :: ys =>
    if x < y then x :: y :: ys
    else if x = y then y :: ys
    else y :: insertarOrdenado x ys

/-- Python `sorted(conjunto)` for a set of naturals given by a list of its
elements (possibly with repetitions): the ascending duplicate-free list. -/
def sortedSet (l : List Nat) : List Nat := l.foldr insertarOrdenado []

/-- The loop `for nombre_indexado, lista_indices in self.indice_nombres.items():
if texto in nombre_indexado: indices_encontrados.update(lista_indices)` —
all positions stored under a key containing `texto`. -/
def indicesCoincidentes (d : Indice) (texto : String) : List Nat :=
  (d.filter (fun kv => pyIn texto kv.1)).flatMap Prod.snd

/-- The collection loop of `_buscar_por_nombre_indexado`:
`for idx in sorted(indices_encontrados): if idx < len(...): append;
if len(coincidencias) >= 50000: break`. -/
def recogerConTope (todos : List Archivo) : List Nat → List Archivo → List Archivo
  | [], acc => acc
  | idx :: resto, acc =>
    if h : idx < todos.length then
      let acc' := acc ++ [todos.get ⟨idx, h⟩]
      if 50000 ≤ acc'.length then acc' else recogerConTope todos resto acc'
    else recogerConTope todos resto acc

/-- `_buscar_por_nombre_indexado` (Buscador.py lines 549-570); its `texto`
argument is already lowercased by the dispatcher. -/
def buscarPorNombreIndexado (st : SharedState) (texto : String) : List Archivo :=
  recogerConTope st.todos_los_archivos
    (sortedSet (indicesCoincidentes st.indice_nombres texto)) []

/-- `_buscar_por_extension_indexado` (Buscador.py lines 572-589): prepend
the missing dot, direct dictionary lookup, keep positions inside range. -/
def buscarPorExtensionIndexado (st : SharedState) (texto : String) : List Archivo :=
  let t := if pyStartsWith texto "." then texto else "." ++ texto
  (dictGet st.indice_extensiones t).filterMap (fun idx => st.todos_los_archivos.get? idx)

/-- Name-mode search as dispatched by `_ejecutar_busqueda_diferida`:
`texto_lower = texto.lower()` before the indexed scan. -/
def busquedaNombre (st : SharedState) (texto : String) : List Archivo :=
  buscarPorNombreIndexado st (pyLower texto)

/-- Extension-mode search as dispatched (lowercased argument). -/
def busquedaExtension (st : SharedState) (texto : String) : List Archivo :=
  buscarPorExtensionIndexado st (pyLower texto)

/-- Matching positions of a generation in ascending insertion order; used
to state what the name search returns. -/
def posicionesCoincidentes (st : SharedState) (texto : String) : List Nat :=
  (List.range st.todos_los_archivos.length).filter
    (fun i => pyIn texto (claveNombre (st.todos_los_archivos.getD i archivoDefault)))

/-- The records of a generation whose lowercased stem contains `texto`, in
walk (insertion) order. -/
def coincidenciasNombre (st : SharedState) (texto : String) : List Archivo :=
  (posicionesCoincidentes st texto).filterMap st.todos_los_archivos.get?

/-- Search-mode constants of `BuscadorArchivos`. -/
def BUSQUEDA_NOMBRE : Nat := 1
/-- `BUSQUEDA_EXTENSION = 2`. -/
def BUSQUEDA_EXTENSION : Nat := 2
/-- `BUSQUEDA_CONTENIDO = 3`. -/
def BUSQUEDA_CONTENIDO : Nat := 3

/-- `_detectar_tipo_busqueda` (Buscador.py lines 248-262). -/
def detectarTipoBusqueda (texto : String) : Nat :=
  let texto_limpio := pyStrip texto
  if texto_limpio = "" then BUSQUEDA_NOMBRE
  else if pyStartsWith texto_limpio "@" then BUSQUEDA_CONTENIDO
  else if pyStartsWith texto_limpio "." then BUSQUEDA_EXTENSION
  else BUSQUEDA_NOMBRE

/-- What `_ejecutar_busqueda_diferida` does with the query text once its
guard clauses (unit selected, not indexing, not already content-searching)
have passed. -/
inductive Accion where
  | browse : Accion
  | contenido (texto : String) : Accion
  | extensionMode (texto_lower : String) : Accion
  | nombreMode (texto_lower : String) : Accion
deriving Repr, DecidableEq

/-- Query dispatch: `texto = self.search_input.text().strip()`; empty text
shows the whole collection (`mostrar_todos_los_archivos`), otherwise the
mode previously set by `_detectar_tipo_busqueda` routes the query, with
`texto_lower = texto.lower()` for the synchronous modes
(Buscador.py lines 518-547). -/
def ejecutarBusqueda (texto : String) : Accion :=
  let tipo := detectarTipoBusqueda texto
  let t := pyStrip texto
  if t = "" then .browse
  else if tipo = BUSQUEDA_CONTENIDO then .contenido t
  else if tipo = BUSQUEDA_EXTENSION then .extensionMode (pyLower t)
  else .nombreMode (pyLower t)

/-- Result list the dispatcher hands to `_mostrar_resultados` for the
synchronous modes (`none` for the asynchronous content path). -/
def resultadosBusqueda (texto : String) (st : SharedState) : Option (List Archivo) :=
  match ejecutarBusqueda texto with
  | .browse => some st.todos_los_archivos
  | .nombreMode q => some (buscarPorNombreIndexado st q)
  | .extensionMode q => some (buscarPorExtensionIndexado st q)
  | .contenido _ => none

/-- Case-insensitive string comparison key order used by
`GestorHistorial._ordenar_lista` (`sorted(lista, key=lambda x: x.lower())`):
Python string `<=` on the lowered strings (lexicographic on code points). -/
def listaLe : List Char → List Char → Bool
  | [], _ => true
  | _ :: _, [] => false
  | a :: as, b :: bs =>
    if a.toNat < b.toNat then true
    else if b.toNat < a.toNat then false
    else listaLe as bs

/-- Python `a <= b` on strings. -/
def pyLe (a b : String) : Bool := listaLe a.toList b.toList

/-- Ordering relation of the history: compare lowercased entries. -/
def ordenHistorial (a b : String) : Prop := pyLe (pyLower a) (pyLower b) = true

instance : DecidableRel ordenHistorial := fun a b =>
  inferInstanceAs (Decidable (pyLe (pyLower a) (pyLower b) = true))

/-- `GestorHistorial._ordenar_lista`. -/
def ordenarLista (l : List String) : List String := l.insertionSort ordenHistorial

/-- `GestorHistorial.MAX_BUSQUEDAS`. -/
def MAX_BUSQUEDAS : Nat := 100

/-- `GestorHistorial.agregar` (GestorHistorial.py lines 89-124): strip,
drop the old exact duplicate, append, cut to the last `MAX_BUSQUEDAS`
entries, sort case-insensitively (`_guardar_historial` re-sorts the
already sorted list, which is the identity). -/
def agregarHistorial (historial : List String) (termino : String) : List String :=
  let t := pyStrip termino
  if t = "" then historial
  else
    let h1 := if t ∈ historial then historial.erase t else historial
    let h2 := h1 ++ [t]
    let h3 := if MAX_BUSQUEDAS < h2.length then h2.drop (h2.length - MAX_BUSQUEDAS) else h2
    ordenarLista h3

/-- The history produced by a sequence of `agregar` calls starting from the
empty store (`BuscadorArchivos.__init__` calls `historial.limpiar()`). -/
def aplicarHistorial (terminos : List String) : List String :=
  terminos.foldl agregarHistorial []

/-- Outcome of `_buscar_por_contenido_automatico` on the shared state, the
history, and the UI: which alert (if any) was raised, whether a content
worker thread was launched (and with which stripped query), and the
resulting history and shared state. -/
structure ResultadoContenido where
  alerta : Option String
  worker : Option String
  historial : List String
  estado : SharedState
deriving Repr, DecidableEq

/-- `_buscar_por_contenido_automatico` (Buscador.py lines 591-635). -/
def buscarPorContenidoAutomatico (st : SharedState) (historial : List String)
    (unidad : Option String) (buscando_contenido : Bool) (texto : String) :
    ResultadoContenido :=
  let texto_busqueda :=
    if pyStartsWith texto "@" then pyStrip (pySlice1 texto) else pyStrip texto
  if texto_busqueda = "" then
    ⟨some "Escribe algo despues del @", none, historial, st⟩
  else if unidad = none then
    ⟨some "Selecciona una unidad USB primero", none, historial, st⟩
  else if st.todos_los_archivos = [] then
    ⟨some "No hay archivos indexados", none, historial, st⟩
  else if buscando_contenido then
    ⟨none, none, historial, st⟩
  else
    ⟨none, some texto_busqueda, agregarHistorial historial texto, st⟩

/-- External-library oracles of the content decoder: `texto ruta enc` is
the outcome of `open(ruta, encoding=enc).read()` (`none` models
`UnicodeDecodeError`/`IOError`); the other fields model the text the
PDF/DOCX/XLSX/PPTX extraction loops concatenate, with `none` for any
library exception. -/
structure Env where
  texto : String → String → Option String
  pdf : String → Option String
  docx : String → Option String
  xlsx : String → Option String
  pptx : String → Option String

/-- `LectorTexto.EXTENSIONES`. -/
def EXTENSIONES_TEXTO : List String :=
  [".txt", ".log", ".csv", ".json", ".xml", ".html",
   ".py", ".js", ".css", ".md", ".ini", ".conf"]

/-- `LectorTexto.ENCODINGS`. -/
def ENCODINGS_TEXTO : List String := ["utf-8", "latin-1", "cp1252", "iso-8859-1"]

/-- The encoding loop of `LectorTexto.leer` (lectores.py lines 62-70):
first encoding that decodes wins, lowercased; empty string if all fail. -/
def intentarEncodings (env : Env) (ruta : String) : List String → String
  | [] => ""
  | e :: resto =>
    match env.texto ruta e with
    | some contenido => pyLower contenido
    | none => intentarEncodings env ruta resto

/-- A reader of the factory: `puede_leer` and `leer`. -/
structure Lector where
  puede_leer : String → Bool
  leer : String → String

/-- `LectorTexto`. -/
def lectorTexto (env : Env) : Lector :=
  ⟨fun ext => EXTENSIONES_TEXTO.contains (pyLower ext),
   fun ruta => intentarEncodings env ruta ENCODINGS_TEXTO⟩

/-- `LectorPDF` (page texts concatenated then lowercased; any PyPDF2
exception yields the empty string). -/
def lectorPDF (env : Env) : Lector :=
  ⟨fun ext => pyLower ext = ".pdf",
   fun ruta => match env.pdf ruta with | some t => pyLower t | none => ""⟩

/-- `LectorDOCX`. -/
def lectorDOCX (env : Env) : Lector :=
  ⟨fun ext => pyLower ext = ".docx",
   fun ruta => match env.docx ruta with | some t => pyLower t | none => ""⟩

/-- `LectorXLSX`. -/
def lectorXLSX (env : Env) : Lector :=
  ⟨fun ext => pyLower ext = ".xlsx" || pyLower ext = ".xls",
   fun ruta => match env.xlsx ruta with | some t => pyLower t | none => ""⟩

/-- `LectorPPTX`. -/
def lectorPPTX (env : Env) : Lector :=
  ⟨fun ext => pyLower ext = ".pptx",
   fun ruta => match env.pptx ruta with | some t => pyLower t | none => ""⟩

/-- `LectorGenerico`: accepts everything, reads nothing. -/
def lectorGenerico : Lector := ⟨fun _ => true, fun _ => ""⟩

/-- `LectorFactory._lectores`, in registration order with the fallback
last. -/
def lectores (env : Env) : List Lector :=
  [lectorTexto env, lectorPDF env, lectorDOCX env, lectorXLSX env,
   lectorPPTX env, lectorGenerico]

/-- The dispatch loop of `LectorFactory.crear_lector` with its post-loop
default (lectores.py lines 217-222); the `Bool` records whether that
post-loop `return LectorGenerico()` branch was taken. -/
def crearLectorLoop (ext : String) : List Lector → Lector × Bool
  | [] => (lectorGenerico, true)
  | l :: resto => if l.puede_leer ext then (l, false) else crearLectorLoop ext resto

/-- `LectorFactory.crear_lector`. -/
def crearLector (env : Env) (ruta : String) : Lector × Bool :=
  crearLectorLoop (pyLower (splitext ruta).2) (lectores env)

/-- `leer_contenido_archivo` (lectores.py lines 281-307): pick the reader,
run it; the surrounding `try/except` is the totality of the model. -/
def leerContenidoArchivo (env : Env) (ruta : String) : String :=
  ((crearLector env ruta).1).leer ruta

/-- The walk of the spec's Scenario 1 tree. -/
def walkEjemplo : List (String × List String) :=
  [("E:", ["Report.PDF", "report.txt", "image.jpg"])]

/-- A non-empty previously published state, used to exercise cancellation. -/
def estadoPrevio : SharedState :=
  ⟨[⟨"old.txt", "E:\\old.txt", ".txt"⟩], [("old", [0])], [(".txt", [0])]⟩

/-- Decoder oracle where UTF-8 fails and Latin-1 yields `"Hello World"`. -/
def envEjemplo : Env :=
  ⟨fun _ enc => if enc = "latin-1" then some "Hello World" else none,
   fun _ => none, fun _ => none, fun _ => none, fun _ => none⟩

/-- Decimal digit as a string. -/
def digito (n : Nat) : String :=
  ["0", "1", "2", "3", "4", "5", "6", "7", "8", "9"].getD n "0"

/-- `etiqueta i = "aDU"` with two decimal digits: 100 alphabetically small,
pairwise distinct history entries. -/
def etiqueta (i : Nat) : String := "a" ++ digito (i / 10) ++ digito (i % 10)

/-- 101 submissions: `"z"` first (the oldest), then `"a00" … "a99"`. -/
def terminos101 : List String := "z" :: (List.range 100).map etiqueta

/-- A file name of 50001 letters `a`. -/
def nombreGrande : String := String.mk (List.replicate 50001 'a')

/-- The last record of the 50001-file walk below. -/
def archivoGrande : Archivo := ⟨nombreGrande, joinPath "E:" nombreGrande, ""⟩

/-- The names `"a"`, `"aa"`, …, 50001 of them, every stem containing
`"a"`. -/
def nombresGrandes : List String :=
  (List.range 50001).map (fun i => String.mk (List.replicate (i + 1) 'a'))

/-- A single-directory walk with 50001 files whose stems all match the
query `"a"`. -/
def walkGrande : List (String × List String) := [("E:", nombresGrandes)]

/-- Faithfulness of one inverted index to the collection: keys are
pairwise distinct, and position `i` is stored under key `k` exactly when
`i` is in range and `k` is the `clave` of the `i`-th record. -/
def IndiceFiel (todos : List Archivo) (d : Indice) (clave : Archivo → String) : Prop :=
  (d.map Prod.fst).Nodup ∧
  ∀ (i : Nat) (k : String),
    i ∈ dictGet d k ↔ ∃ a, todos[i]? = some a ∧ k = clave a

/-- Both indexes of a state are faithful to its collection. -/
def GenFiel (st : SharedState) : Prop :=
  IndiceFiel st.todos_los_archivos st.indice_nombres claveNombre ∧
  IndiceFiel st.todos_los_archivos st.indice_extensiones Archivo.extension

/-! ## Basic lemmas about the indexer run -/

theorem indexarArchivos_some (cancel : Nat → Bool) (root : String) :
    ∀ (files : List String) (n : Nat) (st : SharedState) (n' : Nat) (st' : SharedState),
      indexarArchivos cancel root files n st = some (n', st') →
      st' = files.foldl (fun s f => procesarArchivo root f s) st := by
  intro files
  induction files with
  | nil =>
    intro n st n' st' h
    simp [indexarArchivos] at h
    simp [h.2]
  | cons f fs ih =>
    intro n st n' st' h
    simp only [indexarArchivos] at h
    split at h
    · exact absurd h (by simp)
    · simpa using ih (n + 1) (procesarArchivo root f st) n' st' h

theorem indexarWalk_some (cancel : Nat → Bool) :
    ∀ (walk : List (String × List String)) (n : Nat) (st : SharedState)
      (n' : Nat) (st' : SharedState),
      indexarWalk cancel walk n st = some (n', st') →
      st' = walk.foldl pasoDirectorio st := by
  intro walk
  induction walk with
  | nil =>
    intro n st n' st' h
    simp [indexarWalk] at h
    simp [h.2]
  | cons entrada resto ih =>
    intro n st n' st' h
    obtain ⟨root, files⟩ := entrada
    simp only [indexarWalk] at h
    split at h
    · exact absurd h (by simp)
    · cases harch : indexarArchivos cancel root files (n + 1) st with
      | none => rw [harch] at h; exact absurd h (by simp)
      | some par =>
        obtain ⟨n₁, st₁⟩ := par
        rw [harch] at h
        have h₁ := indexarArchivos_some cancel root files (n + 1) st n₁ st₁ harch
        have h₂ := ih n₁ st₁ n' st' h
        rw [h₂, h₁]
        rfl

/-- **C1.** A run of `indexar_unidad_ultra_optimizado` that observes the
cancellation flag set (at a directory boundary, before a file, or at the
final pre-publication check) returns without publishing and without a
completion event, leaving the shared state exactly as it was when the
attempt started; only an uncancelled run publishes, and then it publishes
the fully built generation as one unit together with the completion event
carrying its total file count. -/
theorem claim_C1 (cancel : Nat → Bool) (walk : List (String × List String))
    (compartido : SharedState) :
    ((indexar_unidad cancel walk compartido).2 = none →
      (indexar_unidad cancel walk compartido).1 = compartido) ∧
    (∀ total : Nat, (indexar_unidad cancel walk compartido).2 = some total →
      (indexar_unidad cancel walk compartido).1 = buildGen walk ∧
      total = (buildGen walk).todos_los_archivos.length) := by
  unfold indexar_unidad
  cases h : indexarWalk cancel walk 0 estadoVacio with
  | none =>
    constructor
    · intro _
      rfl
    · intro total htotal
      simp at htotal
  | some par =>
    obtain ⟨n, gen⟩ := par
    have hgen : gen = buildGen walk :=
      indexarWalk_some cancel walk 0 estadoVacio n gen h
    dsimp only
    by_cases hc : cancel n = true
    · rw [if_pos hc]
      constructor
      · intro _
        rfl
      · intro total htotal
        simp at htotal
    · rw [if_neg hc]
      constructor
      · intro habs
        simp at habs
      · intro total htotal
        simp only [Option.some.injEq] at htotal
        exact ⟨by rw [hgen], by rw [← htotal, hgen]⟩

/-- Witness for C1: with the flag raised from the start, the run over the
example walk leaves the previously published state untouched. -/
theorem claim_C1_witness :
    (indexar_unidad (fun _ => true) walkEjemplo estadoPrevio).1 = estadoPrevio :=
  (claim_C1 (fun _ => true) walkEjemplo estadoPrevio).1 rfl

/-! ## Association-list dictionary lemmas -/

theorem dictGet_dictAppend (d : Indice) (k0 : String) (v : Nat) (k : String) :
    dictGet (dictAppend d k0 v) k =
      if k = k0 then dictGet d k ++ [v] else dictGet d k := by
  induction d with
  | nil =>
    simp only [dictAppend, dictGet]
    by_cases h : k0 = k
    · subst h
      simp
    · have h' : ¬(k = k0) := fun hh => h hh.symm
      simp [h, h']
  | cons kv resto ih =>
    obtain ⟨k', vs⟩ := kv
    by_cases h1 : k' = k0
    · subst h1
      by_cases h2 : k' = k
      · subst h2
        simp [dictAppend, dictGet]
      · have h2' : ¬(k = k') := fun hh => h2 hh.symm
        simp [dictAppend, dictGet, h2, h2']
    · by_cases h2 : k' = k
      · subst h2
        simp [dictAppend, dictGet, h1]
      · have h2' : ¬(k = k') := fun hh => h2 hh.symm
        simp [dictAppend, dictGet, h1, h2, h2', ih]

theorem mem_keys_dictAppend (d : Indice) (k0 : String) (v : Nat) (k : String) :
    k ∈ (dictAppend d k0 v).map Prod.fst ↔ k ∈ d.map Prod.fst ∨ k = k0 := by
  induction d with
  | nil => simp [dictAppend]
  | cons kv resto ih =>
    obtain ⟨k', vs⟩ := kv
    by_cases h1 : k' = k0
    · subst h1
      simp [dictAppend]
      tauto
    · simp [dictAppend, h1, ih]
      tauto

theorem nodup_keys_dictAppend (d : Indice) (k0 : String) (v : Nat)
    (h : (d.map Prod.fst).Nodup) : ((dictAppend d k0 v).map Prod.fst).Nodup := by
  induction d with
  | nil => simp [dictAppend]
  | cons kv resto ih =>
    obtain ⟨k', vs⟩ := kv
    simp only [List.map_cons, List.nodup_cons] at h
    by_cases h1 : k' = k0
    · subst h1
      simp only [dictAppend]
      simpa [List.nodup_cons] using h
    · simp only [dictAppend, if_neg h1, List.map_cons, List.nodup_cons]
      refine ⟨fun hmem => ?_, ih h.2⟩
      rcases (mem_keys_dictAppend resto k0 v k').mp hmem with hmem' | hmem'
      · exact h.1 hmem'
      · exact h1 hmem'

theorem dictGet_eq_of_mem (d : Indice) (k : String) (l : List Nat)
    (hnd : (d.map Prod.fst).Nodup) (hmem : (k, l) ∈ d) : dictGet d k = l := by
  induction d with
  | nil => simp at hmem
  | cons kv resto ih =>
    obtain ⟨k', vs⟩ := kv
    simp only [List.map_cons, List.nodup_cons] at hnd
    rcases List.mem_cons.mp hmem with h | h
    · have hk : k = k' := congrArg Prod.fst h
      have hv : l = vs := congrArg Prod.snd h
      subst hk
      simp [dictGet, hv]
    · have hk : k' ≠ k := by
        intro he
        subst he
        exact hnd.1 (List.mem_map.mpr ⟨(k', l), h, rfl⟩)
      simpa [dictGet, hk] using ih hnd.2 h

theorem mem_of_dictGet_ne_nil (d : Indice) (k : String)
    (h : dictGet d k ≠ []) : (k, dictGet d k) ∈ d := by
  induction d with
  | nil => simp [dictGet] at h
  | cons kv resto ih =>
    obtain ⟨k', vs⟩ := kv
    by_cases hk : k' = k
    · subst hk
      simp [dictGet]
    · simp only [dictGet, if_neg hk] at h ⊢
      exact List.mem_cons_of_mem _ (ih h)

theorem getElem?_lt {α : Type} (l : List α) (i : Nat) (b : α)
    (h : l[i]? = some b) : i < l.length := by
  by_contra hc
  rw [List.getElem?_eq_none (Nat.le_of_not_lt hc)] at h
  exact Option.noConfusion h

/-! ## The indexes stay faithful to the collection -/

theorem indiceFiel_insert (todos : List Archivo) (d : Indice)
    (clave : Archivo → String) (a : Archivo) (hf : IndiceFiel todos d clave) :
    IndiceFiel (todos ++ [a]) (dictAppend d (clave a) todos.length) clave := by
  obtain ⟨hnd, hch⟩ := hf
  refine ⟨nodup_keys_dictAppend _ _ _ hnd, ?_⟩
  intro i k
  rw [dictGet_dictAppend]
  by_cases hk : k = clave a
  · rw [if_pos hk]
    simp only [List.mem_append, List.mem_singleton, hch i k]
    constructor
    · rintro (⟨b, hb, hkb⟩ | rfl)
      · have hi : i < todos.length := getElem?_lt todos i b hb
        refine ⟨b, ?_, hkb⟩
        rw [List.getElem?_append_left hi]
        exact hb
      · refine ⟨a, ?_, hk⟩
        exact List.getElem?_concat_length todos a
    · rintro ⟨b, hb, hkb⟩
      by_cases hi : i < todos.length
      · left
        refine ⟨b, ?_, hkb⟩
        rw [List.getElem?_append_left hi] at hb
        exact hb
      · right
        have hi2 : i < (todos ++ [a]).length := getElem?_lt _ i b hb
        simp only [List.length_append, List.length_singleton] at hi2
        omega
  · rw [if_neg hk]
    rw [hch i k]
    constructor
    · rintro ⟨b, hb, hkb⟩
      have hi : i < todos.length := getElem?_lt todos i b hb
      refine ⟨b, ?_, hkb⟩
      rw [List.getElem?_append_left hi]
      exact hb
    · rintro ⟨b, hb, hkb⟩
      by_cases hi : i < todos.length
      · refine ⟨b, ?_, hkb⟩
        rw [List.getElem?_append_left hi] at hb
        exact hb
      · exfalso
        have hi2 : i < (todos ++ [a]).length := getElem?_lt _ i b hb
        simp only [List.length_append, List.length_singleton] at hi2
        have hieq : i = todos.length := by omega
        subst hieq
        rw [List.getElem?_concat_length] at hb
        exact hk (by rw [hkb, Option.some.inj hb.symm])

theorem genFiel_vacio : GenFiel estadoVacio := by
  constructor <;>
    exact ⟨by simp [estadoVacio], fun i k => by simp [estadoVacio, dictGet]⟩

theorem genFiel_procesar (root nombre : String) (st : SharedState)
    (hf : GenFiel st) : GenFiel (procesarArchivo root nombre st) := by
  obtain ⟨h1, h2⟩ := hf
  constructor
  · exact indiceFiel_insert _ _ _ _ h1
  · exact indiceFiel_insert _ _ _ _ h2

theorem genFiel_foldl_archivos (root : String) :
    ∀ (files : List String) (st : SharedState), GenFiel st →
      GenFiel (files.foldl (fun s f => procesarArchivo root f s) st) := by
  intro files
  induction files with
  | nil => intro st h; exact h
  | cons f fs ih =>
    intro st h
    exact ih (procesarArchivo root f st) (genFiel_procesar root f st h)

theorem genFiel_foldl_walk :
    ∀ (walk : List (String × List String)) (st : SharedState), GenFiel st →
      GenFiel (walk.foldl pasoDirectorio st) := by
  intro walk
  induction walk with
  | nil => intro st h; exact h
  | cons entrada resto ih =>
    intro st h
    exact ih _ (genFiel_foldl_archivos entrada.1 entrada.2 st h)

theorem buildGen_fiel (walk : List (String × List String)) : GenFiel (buildGen walk) :=
  genFiel_foldl_walk walk estadoVacio genFiel_vacio

/-- **C2.** In a completed generation, every record appears in the
NameIndex under exactly one key — its lowercased stem — and in the
ExtensionIndex under exactly one key — its lowercased extension (the
empty string for extensionless files): position `i` is stored under `k`
iff `k` is that record's own key. -/
theorem claim_C2 (walk : List (String × List String)) (i : Nat)
    (h : i < (buildGen walk).todos_los_archivos.length) (k : String) :
    (i ∈ dictGet (buildGen walk).indice_nombres k ↔
      k = claveNombre ((buildGen walk).todos_los_archivos.get ⟨i, h⟩)) ∧
    (i ∈ dictGet (buildGen walk).indice_extensiones k ↔
      k = ((buildGen walk).todos_los_archivos.get ⟨i, h⟩).extension) := by
  obtain ⟨⟨_, hn⟩, ⟨_, he⟩⟩ := buildGen_fiel walk
  have hsome : (buildGen walk).todos_los_archivos[i]? =
      some ((buildGen walk).todos_los_archivos.get ⟨i, h⟩) := by
    rw [List.getElem?_eq_getElem h]
    rfl
  constructor
  · rw [hn i k]
    constructor
    · rintro ⟨a, ha, hka⟩
      rw [hka, Option.some.inj (hsome.symm.trans ha)]
    · intro hik
      exact ⟨_, hsome, hik⟩
  · rw [he i k]
    constructor
    · rintro ⟨a, ha, hka⟩
      rw [hka, Option.some.inj (hsome.symm.trans ha)]
    · intro hik
      exact ⟨_, hsome, hik⟩

/-- Witness for C2 on the Scenario-1 walk: position 0 (`Report.PDF`) is
found under its stem `"report"` in the NameIndex but under no other key of
the ExtensionIndex such as `"report"`. -/
theorem claim_C2_witness :
    0 ∈ dictGet (buildGen walkEjemplo).indice_nombres "report" ∧
    ¬ 0 ∈ dictGet (buildGen walkEjemplo).indice_extensiones "report" := by
  have h := claim_C2 walkEjemplo 0 (by decide) "report"
  constructor
  · exact h.1.mpr (by decide)
  · intro hmem
    exact absurd (h.2.mp hmem) (by decide)

/-- **C3.** Query-mode classification after trimming is total and
exclusive: empty or whitespace-only text is routed to Browse (the full
collection, never the substring scan); text whose first non-whitespace
character is `@` is Content mode; text whose first non-whitespace
character is `.` is Extension mode; everything else is Name mode. -/
theorem claim_C3 (texto : String) (st : SharedState) :
    (pyStrip texto = "" →
      ejecutarBusqueda texto = .browse ∧
      resultadosBusqueda texto st = some st.todos_los_archivos) ∧
    (pyStartsWith (pyStrip texto) "@" = true →
      ejecutarBusqueda texto = .contenido (pyStrip texto)) ∧
    (pyStartsWith (pyStrip texto) "@" = false →
      pyStartsWith (pyStrip texto) "." = true →
      ejecutarBusqueda texto = .extensionMode (pyLower (pyStrip texto))) ∧
    (pyStrip texto ≠ "" →
      pyStartsWith (pyStrip texto) "@" = false →
      pyStartsWith (pyStrip texto) "." = false →
      ejecutarBusqueda texto = .nombreMode (pyLower (pyStrip texto))) := by
  refine ⟨?_, ?_, ?_, ?_⟩
  · intro h
    constructor
    · simp [ejecutarBusqueda, h]
    · simp [resultadosBusqueda, ejecutarBusqueda, h]
  · intro h
    have hne : pyStrip texto ≠ "" := by
      intro he
      rw [he] at h
      simp [pyStartsWith, List.isPrefixOf] at h
    simp [ejecutarBusqueda, detectarTipoBusqueda, hne, h,
      BUSQUEDA_CONTENIDO]
  · intro h hdot
    have hne : pyStrip texto ≠ "" := by
      intro he
      rw [he] at hdot
      simp [pyStartsWith, List.isPrefixOf] at hdot
    simp [ejecutarBusqueda, detectarTipoBusqueda, hne, h, hdot,
      BUSQUEDA_CONTENIDO, BUSQUEDA_EXTENSION]
  · intro hne h hdot
    simp [ejecutarBusqueda, detectarTipoBusqueda, hne, h, hdot,
      BUSQUEDA_CONTENIDO, BUSQUEDA_EXTENSION, BUSQUEDA_NOMBRE]

/-- Witness for C3: the four classes on concrete queries `"   "`,
`" @hola"`, `" .PDF"` and `"Informe"`. -/
theorem claim_C3_witness :
    (ejecutarBusqueda "   " = .browse ∧
      resultadosBusqueda "   " estadoPrevio = some estadoPrevio.todos_los_archivos) ∧
    ejecutarBusqueda " @hola" = .contenido "@hola" ∧
    ejecutarBusqueda " .PDF" = .extensionMode ".pdf" ∧
    ejecutarBusqueda "Informe" = .nombreMode "informe" := by
  refine ⟨(claim_C3 "   " estadoPrevio).1 (by decide), ?_, ?_, ?_⟩
  · have h := (claim_C3 " @hola" estadoPrevio).2.1 (by decide)
    simpa using h
  · have h := (claim_C3 " .PDF" estadoPrevio).2.2.1 (by decide) (by decide)
    simpa using h
  · have h := (claim_C3 "Informe" estadoPrevio).2.2.2 (by decide) (by decide) (by decide)
    simpa using h

/-- **C7.** A Content-mode query whose text is empty once the `@` sigil is
stripped and whitespace trimmed raises the user-input alert and performs
no search: no worker thread is started, and the history and the shared
state are exactly what they were. -/
theorem claim_C7 (st : SharedState) (historial : List String)
    (unidad : Option String) (buscando_contenido : Bool) (texto : String)
    (hsigil : pyStartsWith texto "@" = true)
    (hvacio : pyStrip (pySlice1 texto) = "") :
    (buscarPorContenidoAutomatico st historial unidad buscando_contenido texto).alerta =
      some "Escribe algo despues del @" ∧
    (buscarPorContenidoAutomatico st historial unidad buscando_contenido texto).worker = none ∧
    (buscarPorContenidoAutomatico st historial unidad buscando_contenido texto).historial =
      historial ∧
    (buscarPorContenidoAutomatico st historial unidad buscando_contenido texto).estado = st := by
  simp [buscarPorContenidoAutomatico, hsigil, hvacio]

/-- Witness for C7: the spec's Scenario 4 query, `"@"` followed by
whitespace only. -/
theorem claim_C7_witness :
    (buscarPorContenidoAutomatico estadoPrevio ["ya"] (some "E:\\") false "@  ").alerta =
      some "Escribe algo despues del @" ∧
    (buscarPorContenidoAutomatico estadoPrevio ["ya"] (some "E:\\") false "@  ").worker = none ∧
    (buscarPorContenidoAutomatico estadoPrevio ["ya"] (some "E:\\") false "@  ").historial =
      ["ya"] ∧
    (buscarPorContenidoAutomatico estadoPrevio ["ya"] (some "E:\\") false "@  ").estado =
      estadoPrevio :=
  claim_C7 estadoPrevio ["ya"] (some "E:\\") false "@  " (by decide) (by decide)

theorem lectorLoop_no_fallback (env : Env) (ext : String) :
    (crearLectorLoop ext (lectores env)).2 = false := by
  simp only [lectores, crearLectorLoop, lectorGenerico]
  split_ifs <;> rfl

/-- **C8.** For every extension string (unknown and empty included) the
factory's priority loop finds an applicable reader — the fallback accepts
any extension and returns the empty string — so the post-loop
`return LectorGenerico()` branch of `crear_lector` is unreachable. -/
theorem claim_C8 (env : Env) (ext : String) :
    (crearLectorLoop ext (lectores env)).2 = false ∧
    lectorGenerico.puede_leer ext = true ∧
    (∀ ruta : String, lectorGenerico.leer ruta = "") ∧
    (∀ ruta : String, (crearLector env ruta).2 = false) :=
  ⟨lectorLoop_no_fallback env ext, rfl, fun _ => rfl,
   fun _ => lectorLoop_no_fallback env _⟩

/-! ## Lowercasing and the leading dot -/

theorem toNat_ofNat_valid (n : Nat) (h : n.isValidChar) : (Char.ofNat n).toNat = n := by
  rw [Char.ofNat, dif_pos h]
  rfl

theorem toLower_dot (c : Char) (h : c.toLower = '.') : c = '.' := by
  unfold Char.toLower at h
  dsimp only at h
  split at h
  · next hcond =>
    exfalso
    have hvalid : (c.toNat + 32).isValidChar := Or.inl (by omega)
    have hval := congrArg Char.toNat h
    rw [toNat_ofNat_valid _ hvalid] at hval
    have hdot : ('.' : Char).toNat = 46 := by decide
    rw [hdot] at hval
    omega
  · exact h

theorem pyStartsWith_pyLower_dot (q : String) :
    pyStartsWith (pyLower q) "." = pyStartsWith q "." := by
  unfold pyStartsWith pyLower
  show (".".toList.isPrefixOf (q.toList.map pyLowerChar)) = (".".toList.isPrefixOf q.toList)
  cases q.toList with
  | nil => rfl
  | cons c resto =>
    by_cases hc : c = '.'
    · subst hc
      simp [List.isPrefixOf]
      rfl
    · have h1 : ('.' == pyLowerChar c) = false :=
        beq_eq_false_iff_ne.mpr (fun he => hc (toLower_dot c he.symm))
      have h2 : ('.' == c) = false := beq_eq_false_iff_ne.mpr (fun he => hc he.symm)
      simp [List.isPrefixOf, h1, h2]

theorem toList_append_str (a b : String) : (a ++ b).toList = a.toList ++ b.toList := by
  simp [String.toList, String.data_append]

theorem pyLower_dot_prepend (q : String) : pyLower ("." ++ q) = "." ++ pyLower q := by
  unfold pyLower
  rw [toList_append_str]
  rfl

theorem pyStartsWith_dot_prepend (s : String) : pyStartsWith ("." ++ s) "." = true := by
  unfold pyStartsWith
  rw [toList_append_str]
  simp [List.isPrefixOf]

/-- **C5.** For every state and non-empty Extension-mode query lacking a
leading dot, the search behaves exactly as on the same text with the dot
prepended (the normalization adds the missing dot before the direct,
lowercased key lookup), and an absent key yields the empty result. -/
theorem claim_C5 (st : SharedState) (q : String)
    (hdot : pyStartsWith q "." = false) (hne : q ≠ "") :
    busquedaExtension st q = busquedaExtension st ("." ++ q) ∧
    (dictGet st.indice_extensiones ("." ++ pyLower q) = [] →
      busquedaExtension st q = []) := by
  have hlow : pyLower ("." ++ q) = "." ++ pyLower q := pyLower_dot_prepend q
  have hlowdot : pyStartsWith (pyLower q) "." = false := by
    rw [pyStartsWith_pyLower_dot]
    exact hdot
  have hdotdot : pyStartsWith ("." ++ pyLower q) "." = true :=
    pyStartsWith_dot_prepend (pyLower q)
  constructor
  · simp [busquedaExtension, buscarPorExtensionIndexado, hlow, hlowdot, hdotdot]
  · intro hempty
    simp [busquedaExtension, buscarPorExtensionIndexado, hlowdot, hempty]

/-- Witness for C5 on the Scenario-1 generation: `"pdf"` and `".pdf"`
agree, and both return exactly `Report.PDF`. -/
theorem claim_C5_witness :
    busquedaExtension (buildGen walkEjemplo) "pdf" =
      busquedaExtension (buildGen walkEjemplo) (".pdf") ∧
    busquedaExtension (buildGen walkEjemplo) "pdf" =
      [⟨"Report.PDF", joinPath "E:" "Report.PDF", ".pdf"⟩] := by
  constructor
  · have h := (claim_C5 (buildGen walkEjemplo) "pdf" (by decide) (by decide)).1
    simpa using h
  · decide

/-! ## Content decoder -/

theorem toLower_of_not_upper (d : Char) (h : ¬(d.toNat ≥ 65 ∧ d.toNat ≤ 90)) :
    d.toLower = d := by
  unfold Char.toLower
  dsimp only
  rw [if_neg h]

theorem toLower_idem (c : Char) : c.toLower.toLower = c.toLower := by
  by_cases h : c.toNat ≥ 65 ∧ c.toNat ≤ 90
  · have h1 : c.toLower = Char.ofNat (c.toNat + 32) := by
      unfold Char.toLower
      dsimp only
      rw [if_pos h]
    have hvalid : (c.toNat + 32).isValidChar := Or.inl (by omega)
    apply toLower_of_not_upper
    rw [h1, toNat_ofNat_valid _ hvalid]
    omega
  · rw [toLower_of_not_upper c h]
    exact toLower_of_not_upper c h

theorem map_pyLowerChar_idem : ∀ l : List Char,
    (l.map pyLowerChar).map pyLowerChar = l.map pyLowerChar := by
  intro l
  induction l with
  | nil => rfl
  | cons c resto ih =>
    simp only [List.map_cons, ih, List.cons.injEq, and_true]
    exact toLower_idem c

theorem pyLower_idem (s : String) : pyLower (pyLower s) = pyLower s := by
  unfold pyLower
  exact congrArg String.mk (map_pyLowerChar_idem s.toList)

theorem vacia_es_lower : ("" : String) = pyLower "" := rfl

theorem intentarEncodings_lower (env : Env) (ruta : String) :
    ∀ es : List String, ∃ s, intentarEncodings env ruta es = pyLower s := by
  intro es
  induction es with
  | nil => exact ⟨"", rfl⟩
  | cons e resto ih =>
    cases h : env.texto ruta e with
    | some c => exact ⟨c, by simp [intentarEncodings, h]⟩
    | none =>
      obtain ⟨s, hs⟩ := ih
      exact ⟨s, by simp [intentarEncodings, h, hs]⟩

theorem intentarEncodings_all_none (env : Env) (ruta : String) :
    ∀ es : List String, (∀ e ∈ es, env.texto ruta e = none) →
      intentarEncodings env ruta es = "" := by
  intro es
  induction es with
  | nil => intro _; rfl
  | cons e resto ih =>
    intro h
    have he : env.texto ruta e = none := h e (List.mem_cons_self e resto)
    simp only [intentarEncodings, he]
    exact ih (fun e' he' => h e' (List.mem_cons_of_mem e he'))

theorem intentarEncodings_first (env : Env) (ruta : String) :
    ∀ (es : List String) (i : Nat) (c : String), i < es.length →
      (∀ j, j < i → env.texto ruta (es.getD j "") = none) →
      env.texto ruta (es.getD i "") = some c →
      intentarEncodings env ruta es = pyLower c := by
  intro es
  induction es with
  | nil =>
    intro i c hi
    simp at hi
  | cons e resto ih =>
    intro i c hi hprev hsome
    cases i with
    | zero =>
      simp only [List.getD_cons_zero] at hsome
      simp [intentarEncodings, hsome]
    | succ i' =>
      have h0 : env.texto ruta e = none := by
        have := hprev 0 (Nat.succ_pos i')
        simpa using this
      simp only [intentarEncodings, h0]
      refine ih i' c (by simpa using hi) ?_ (by simpa using hsome)
      intro j hj
      have := hprev (j + 1) (Nat.succ_lt_succ hj)
      simpa using this

theorem crearLectorLoop_texto (env : Env) (e2 : String)
    (h : EXTENSIONES_TEXTO.contains (pyLower e2) = true) :
    crearLectorLoop e2 (lectores env) = (lectorTexto env, false) := by
  have h' : pyLower e2 ∈ EXTENSIONES_TEXTO := by simpa using h
  simp [crearLectorLoop, lectores, lectorTexto, h']

theorem leerContenidoArchivo_lower (env : Env) (ruta : String) :
    ∃ s, leerContenidoArchivo env ruta = pyLower s := by
  simp only [leerContenidoArchivo, crearLector, lectores, crearLectorLoop,
    lectorTexto, lectorPDF, lectorDOCX, lectorXLSX, lectorPPTX, lectorGenerico]
  split_ifs with h1 h2 h3 h4 h5
  · exact intentarEncodings_lower env ruta ENCODINGS_TEXTO
  · cases h : env.pdf ruta with
    | some t => exact ⟨t, by simp [h]⟩
    | none =>
      refine ⟨"", ?_⟩
      simp [h]
      rfl
  · cases h : env.docx ruta with
    | some t => exact ⟨t, by simp [h]⟩
    | none =>
      refine ⟨"", ?_⟩
      simp [h]
      rfl
  · cases h : env.xlsx ruta with
    | some t => exact ⟨t, by simp [h]⟩
    | none =>
      refine ⟨"", ?_⟩
      simp [h]
      rfl
  · cases h : env.pptx ruta with
    | some t => exact ⟨t, by simp [h]⟩
    | none =>
      refine ⟨"", ?_⟩
      simp [h]
      rfl
  · exact ⟨"", rfl⟩

/-- **C6.** The content decoder is total (exceptions are caught into the
empty string) and always returns a fully lowercased text — the lowering of
some decoded content, with `""` on any failure; for text-like extensions
it tries `utf-8`, `latin-1`, `cp1252`, `iso-8859-1` in that fixed order,
returns the lowered result of the first encoding that decodes, and the
empty string when every encoding fails. -/
theorem claim_C6 (env : Env) (ruta : String) :
    (∃ s, leerContenidoArchivo env ruta = pyLower s) ∧
    (EXTENSIONES_TEXTO.contains (pyLower (splitext ruta).2) = true →
      leerContenidoArchivo env ruta = intentarEncodings env ruta ENCODINGS_TEXTO ∧
      ((∀ e ∈ ENCODINGS_TEXTO, env.texto ruta e = none) →
        leerContenidoArchivo env ruta = "") ∧
      (∀ (i : Nat) (c : String), i < ENCODINGS_TEXTO.length →
        (∀ j, j < i → env.texto ruta (ENCODINGS_TEXTO.getD j "") = none) →
        env.texto ruta (ENCODINGS_TEXTO.getD i "") = some c →
        leerContenidoArchivo env ruta = pyLower c)) := by
  refine ⟨leerContenidoArchivo_lower env ruta, fun hext => ?_⟩
  have hloop : leerContenidoArchivo env ruta = intentarEncodings env ruta ENCODINGS_TEXTO := by
    have hext2 : EXTENSIONES_TEXTO.contains (pyLower (pyLower (splitext ruta).2)) = true := by
      rw [pyLower_idem]
      exact hext
    unfold leerContenidoArchivo crearLector
    rw [crearLectorLoop_texto env (pyLower (splitext ruta).2) hext2]
    rfl
  refine ⟨hloop, fun hnone => ?_, fun i c hi hprev hsome => ?_⟩
  · rw [hloop]
    exact intentarEncodings_all_none env ruta ENCODINGS_TEXTO hnone
  · rw [hloop]
    exact intentarEncodings_first env ruta ENCODINGS_TEXTO i c hi hprev hsome

/-- Witness for C6: on `notas.txt` with UTF-8 failing and Latin-1 decoding
to `"Hello World"`, the decoder returns the Latin-1 text lowercased. -/
theorem claim_C6_witness :
    leerContenidoArchivo envEjemplo "E:\\notas.txt" = pyLower "Hello World" ∧
    leerContenidoArchivo envEjemplo "E:\\notas.txt" = "hello world" := by
  have h := (claim_C6 envEjemplo "E:\\notas.txt").2 (by decide)
  have hfirst := h.2.2 1 "Hello World" (by decide)
    (fun j hj => by
      have hj0 : j = 0 := by omega
      subst hj0
      rfl)
    rfl
  exact ⟨hfirst, by rw [hfirst]; decide⟩

/-! ## `sorted(set(...))` of the name search -/

theorem mem_insertarOrdenado (x a : Nat) :
    ∀ l, a ∈ insertarOrdenado x l ↔ a = x ∨ a ∈ l := by
  intro l
  induction l with
  | nil => simp [insertarOrdenado]
  | cons y ys ih =>
    simp only [insertarOrdenado]
    split_ifs with h1 h2
    · simp [List.mem_cons]
    · subst h2
      simp [List.mem_cons]
    · simp [List.mem_cons, ih]
      tauto

theorem sorted_insertarOrdenado (x : Nat) :
    ∀ l, List.Sorted (· < ·) l → List.Sorted (· < ·) (insertarOrdenado x l) := by
  intro l
  induction l with
  | nil =>
    intro _
    simp [insertarOrdenado]
  | cons y ys ih =>
    intro hs
    rw [List.sorted_cons] at hs
    simp only [insertarOrdenado]
    split_ifs with h1 h2
    · rw [List.sorted_cons]
      constructor
      · intro b hb
        rcases List.mem_cons.mp hb with rfl | hb
        · exact h1
        · exact Nat.lt_trans h1 (hs.1 b hb)
      · rw [List.sorted_cons]
        exact hs
    · rw [List.sorted_cons]
      exact hs
    · have hyx : y < x := by omega
      rw [List.sorted_cons]
      constructor
      · intro b hb
        rcases (mem_insertarOrdenado x b ys).mp hb with rfl | hb
        · exact hyx
        · exact hs.1 b hb
      · exact ih hs.2

theorem sorted_sortedSet (l : List Nat) : List.Sorted (· < ·) (sortedSet l) := by
  unfold sortedSet
  induction l with
  | nil => simp
  | cons x xs ih => exact sorted_insertarOrdenado x _ ih

theorem mem_sortedSet (l : List Nat) (a : Nat) : a ∈ sortedSet l ↔ a ∈ l := by
  unfold sortedSet
  induction l with
  | nil => simp
  | cons x xs ih =>
    simp only [List.foldr_cons]
    rw [mem_insertarOrdenado]
    simp [ih]

theorem sortedSet_eq_filter_range (l : List Nat) (n : Nat) (hl : ∀ i ∈ l, i < n) :
    sortedSet l = (List.range n).filter (fun i => decide (i ∈ l)) := by
  refine List.eq_of_perm_of_sorted ?_ (sorted_sortedSet l) ?_
  · refine (List.perm_ext_iff_of_nodup (sorted_sortedSet l).nodup
      (((List.nodup_range n).filter _)) ).mpr ?_
    intro a
    rw [mem_sortedSet]
    simp only [List.mem_filter, List.mem_range, decide_eq_true_eq]
    constructor
    · intro ha
      exact ⟨hl a ha, ha⟩
    · intro ha
      exact ha.2
  · exact (List.pairwise_lt_range n).filter _

/-! ## Characterizing the name search -/

theorem mem_indicesCoincidentes (d : Indice) (texto : String) (i : Nat)
    (hnd : (d.map Prod.fst).Nodup) :
    i ∈ indicesCoincidentes d texto ↔ ∃ k, pyIn texto k = true ∧ i ∈ dictGet d k := by
  unfold indicesCoincidentes
  rw [List.mem_flatMap]
  constructor
  · rintro ⟨kv, hkv, hi⟩
    obtain ⟨hkvd, hp⟩ := List.mem_filter.mp hkv
    refine ⟨kv.1, hp, ?_⟩
    rw [dictGet_eq_of_mem d kv.1 kv.2 hnd (by simpa using hkvd)]
    exact hi
  · rintro ⟨k, hk, hi⟩
    have hne : dictGet d k ≠ [] := fun he => by
      rw [he] at hi
      exact (List.not_mem_nil i) hi
    refine ⟨(k, dictGet d k), ?_, hi⟩
    exact List.mem_filter.mpr ⟨mem_of_dictGet_ne_nil d k hne, hk⟩

theorem mem_indicesCoincidentes_gen (st : SharedState)
    (hf : IndiceFiel st.todos_los_archivos st.indice_nombres claveNombre)
    (texto : String) (i : Nat) :
    i ∈ indicesCoincidentes st.indice_nombres texto ↔
      ∃ a, st.todos_los_archivos[i]? = some a ∧ pyIn texto (claveNombre a) = true := by
  rw [mem_indicesCoincidentes _ _ _ hf.1]
  constructor
  · rintro ⟨k, hk, hi⟩
    obtain ⟨a, ha, hka⟩ := (hf.2 i k).mp hi
    refine ⟨a, ha, ?_⟩
    rw [← hka]
    exact hk
  · rintro ⟨a, ha, hka⟩
    exact ⟨claveNombre a, hka, (hf.2 i (claveNombre a)).mpr ⟨a, ha, rfl⟩⟩

theorem recogerConTope_eq (todos : List Archivo) :
    ∀ (l : List Nat) (acc : List Archivo), acc.length < 50000 →
      recogerConTope todos l acc =
        (acc ++ l.filterMap (fun idx => todos.get? idx)).take 50000 := by
  intro l
  induction l with
  | nil =>
    intro acc hacc
    simp [recogerConTope, List.take_of_length_le (Nat.le_of_lt hacc)]
  | cons idx resto ih =>
    intro acc hacc
    simp only [recogerConTope]
    split
    · next h =>
      by_cases hlen : 50000 ≤ (acc ++ [todos.get ⟨idx, h⟩]).length
      · rw [if_pos hlen]
        have hexact : (acc ++ [todos.get ⟨idx, h⟩]).length = 50000 := by
          simp only [List.length_append, List.length_singleton] at hlen ⊢
          omega
        have hfm : (idx :: resto).filterMap (fun j => todos.get? j) =
            todos.get ⟨idx, h⟩ :: resto.filterMap (fun j => todos.get? j) := by
          simp [List.filterMap_cons, List.getElem?_eq_getElem h]
        rw [hfm,
          show acc ++ todos.get ⟨idx, h⟩ :: resto.filterMap (fun j => todos.get? j) =
            (acc ++ [todos.get ⟨idx, h⟩]) ++ resto.filterMap (fun j => todos.get? j) by simp,
          ← hexact, List.take_left]
      · rw [if_neg hlen]
        push_neg at hlen
        rw [ih _ hlen]
        congr 1
        rw [List.append_assoc]
        congr 1
        simp [List.filterMap_cons, List.getElem?_eq_getElem h]
    · next h =>
      rw [ih _ hacc]
      congr 2
      simp [List.filterMap_cons, List.getElem?_eq_none (Nat.le_of_not_lt h)]

theorem buscarPorNombreIndexado_eq (walk : List (String × List String)) (texto : String) :
    buscarPorNombreIndexado (buildGen walk) texto =
      (coincidenciasNombre (buildGen walk) texto).take 50000 := by
  have hf := (buildGen_fiel walk).1
  have hbound : ∀ i ∈ indicesCoincidentes (buildGen walk).indice_nombres texto,
      i < (buildGen walk).todos_los_archivos.length := by
    intro i hi
    obtain ⟨a, ha, _⟩ := (mem_indicesCoincidentes_gen (buildGen walk) hf texto i).mp hi
    exact getElem?_lt _ i a ha
  unfold buscarPorNombreIndexado
  rw [recogerConTope_eq (buildGen walk).todos_los_archivos _ [] (by norm_num)]
  rw [List.nil_append]
  rw [sortedSet_eq_filter_range _ (buildGen walk).todos_los_archivos.length hbound]
  unfold coincidenciasNombre posicionesCoincidentes
  congr 1
  congr 1
  apply List.filter_congr
  intro i hi
  rw [List.mem_range] at hi
  have hgetD : (buildGen walk).todos_los_archivos.getD i archivoDefault =
      (buildGen walk).todos_los_archivos[i] := by
    rw [List.getD_eq_getElem?_getD, List.getElem?_eq_getElem hi]
    rfl
  have hiff : i ∈ indicesCoincidentes (buildGen walk).indice_nombres texto ↔
      pyIn texto (claveNombre ((buildGen walk).todos_los_archivos[i])) = true := by
    rw [mem_indicesCoincidentes_gen (buildGen walk) hf texto i]
    constructor
    · rintro ⟨a, ha, hpa⟩
      rw [List.getElem?_eq_getElem hi] at ha
      rw [Option.some.inj ha]
      exact hpa
    · intro hp
      exact ⟨(buildGen walk).todos_los_archivos[i], by rw [List.getElem?_eq_getElem hi], hp⟩
  rw [hgetD]
  by_cases hmem : i ∈ indicesCoincidentes (buildGen walk).indice_nombres texto
  · rw [decide_eq_true hmem, (hiff.mp hmem).symm]
  · rw [decide_eq_false hmem]
    cases hpy : pyIn texto (claveNombre ((buildGen walk).todos_los_archivos[i])) with
    | true => exact absurd (hiff.mpr hpy) hmem
    | false => rfl

/-! ## The single-directory generation, concretely -/

theorem foldl_todos (root : String) :
    ∀ (files : List String) (st : SharedState),
      (files.foldl (fun s f => procesarArchivo root f s) st).todos_los_archivos =
        st.todos_los_archivos ++
          files.map (fun f => ⟨f, joinPath root f, extOf f⟩) := by
  intro files
  induction files with
  | nil =>
    intro st
    simp
  | cons f fs ih =>
    intro st
    rw [List.foldl_cons, ih]
    simp [procesarArchivo]

theorem buildGen_un_dir (root : String) (files : List String) :
    (buildGen [(root, files)]).todos_los_archivos =
      files.map (fun f => ⟨f, joinPath root f, extOf f⟩) := by
  show (pasoDirectorio estadoVacio (root, files)).todos_los_archivos = _
  unfold pasoDirectorio
  rw [foldl_todos]
  simp [estadoVacio]

theorem lastIndexOf_none_of_all (p : Char → Bool) :
    ∀ l : List Char, (∀ c ∈ l, p c = false) → lastIndexOf p l = none := by
  intro l
  induction l with
  | nil => intro _; rfl
  | cons c resto ih =>
    intro h
    have hc : p c = false := h c (List.mem_cons_self c resto)
    have hr := ih (fun c' hc' => h c' (List.mem_cons_of_mem c hc'))
    simp [lastIndexOf, hr, hc]

theorem splitext_sin_punto (s : String)
    (hdot : lastIndexOf (fun c => c = '.') s.toList = none) :
    splitext s = (s, "") := by
  unfold splitext
  dsimp only
  rw [hdot]

theorem splitext_replicate_a (m : Nat) :
    splitext (String.mk (List.replicate m 'a')) =
      (String.mk (List.replicate m 'a'), "") := by
  apply splitext_sin_punto
  apply lastIndexOf_none_of_all
  intro c hc
  rw [List.eq_of_mem_replicate hc]
  decide

theorem pyLower_replicate_a (m : Nat) :
    pyLower (String.mk (List.replicate m 'a')) = String.mk (List.replicate m 'a') := by
  unfold pyLower
  congr 1
  show (List.replicate m 'a').map pyLowerChar = List.replicate m 'a'
  rw [List.map_replicate]
  congr 1

theorem stemOf_replicate_a (m : Nat) :
    stemOf (String.mk (List.replicate m 'a')) = String.mk (List.replicate m 'a') := by
  unfold stemOf
  rw [splitext_replicate_a]
  exact pyLower_replicate_a m

theorem extOf_replicate_a (m : Nat) :
    extOf (String.mk (List.replicate m 'a')) = "" := by
  unfold extOf
  rw [splitext_replicate_a]
  rfl

theorem pyIn_a_replicate (m : Nat) :
    pyIn "a" (String.mk (List.replicate (m + 1) 'a')) = true := by
  unfold pyIn
  show subList ['a'] (List.replicate (m + 1) 'a') = true
  rw [List.replicate_succ]
  simp [subList, List.isPrefixOf]

theorem todosGrandes_eq :
    (buildGen walkGrande).todos_los_archivos =
      (List.range 50001).map
        (fun i => ⟨String.mk (List.replicate (i + 1) 'a'),
                   joinPath "E:" (String.mk (List.replicate (i + 1) 'a')), ""⟩) := by
  show (buildGen [("E:", nombresGrandes)]).todos_los_archivos = _
  rw [buildGen_un_dir]
  unfold nombresGrandes
  rw [List.map_map]
  apply List.map_congr_left
  intro i _
  show (⟨String.mk (List.replicate (i + 1) 'a'),
         joinPath "E:" (String.mk (List.replicate (i + 1) 'a')),
         extOf (String.mk (List.replicate (i + 1) 'a'))⟩ : Archivo) = _
  rw [extOf_replicate_a]

/-- **C4, counterexample.** On a generation with 50001 pairwise-distinct
records whose stems all contain the non-empty lowercase query `"a"`, the
Name-mode search cannot return "exactly the set" of matching records: the
matching set has 50001 distinct members while the search result holds at
most 50000 (the `>= 50000` break in `_buscar_por_nombre_indexado`). -/
theorem claim_C4_counterexample :
    ((buildGen walkGrande).todos_los_archivos.filter
        (fun a => pyIn "a" (claveNombre a))).length = 50001 ∧
    ((buildGen walkGrande).todos_los_archivos.filter
        (fun a => pyIn "a" (claveNombre a))).Nodup ∧
    (busquedaNombre (buildGen walkGrande) "a").length ≤ 50000 := by
  have htodos := todosGrandes_eq
  have hmatch : ∀ a ∈ (buildGen walkGrande).todos_los_archivos,
      pyIn "a" (claveNombre a) = true := by
    intro a ha
    rw [htodos] at ha
    obtain ⟨i, hi, rfl⟩ := List.mem_map.mp ha
    show pyIn "a" (stemOf (String.mk (List.replicate (i + 1) 'a'))) = true
    rw [stemOf_replicate_a]
    exact pyIn_a_replicate i
  refine ⟨?_, ?_, ?_⟩
  · rw [List.filter_eq_self.mpr hmatch, htodos]
    simp
  · rw [List.filter_eq_self.mpr hmatch, htodos]
    refine (List.nodup_range 50001).map ?_
    intro i j hij
    have h1 : String.mk (List.replicate (i + 1) 'a') =
        String.mk (List.replicate (j + 1) 'a') := congrArg Archivo.nombre hij
    have h2 : List.replicate (i + 1) 'a' = List.replicate (j + 1) 'a' :=
      congrArg String.toList h1
    have h3 : i + 1 = j + 1 := by
      have := congrArg List.length h2
      simpa using this
    omega
  · unfold busquedaNombre
    have hlow : pyLower "a" = "a" := by decide
    rw [hlow, buscarPorNombreIndexado_eq walkGrande "a"]
    exact List.length_take_le 50000 _

/-- **C4, amended.** For every non-empty query and every completed
generation, the Name-mode search returns the records whose lowercased stem
contains the lowercased query as a substring, in walk order, truncated to
the first 50000 of them; whenever at most 50000 records match (the cap not
reached) this is exactly the set of matching records, each appearing
once. -/
theorem claim_C4_amended (walk : List (String × List String)) (q : String)
    (hq : q ≠ "") :
    busquedaNombre (buildGen walk) q =
      (coincidenciasNombre (buildGen walk) (pyLower q)).take 50000 ∧
    ((coincidenciasNombre (buildGen walk) (pyLower q)).length ≤ 50000 →
      ∀ a : Archivo,
        a ∈ busquedaNombre (buildGen walk) q ↔
          ∃ i, ∃ hi : i < (buildGen walk).todos_los_archivos.length,
            (buildGen walk).todos_los_archivos[i] = a ∧
            pyIn (pyLower q) (claveNombre a) = true) := by
  have heq : busquedaNombre (buildGen walk) q =
      (coincidenciasNombre (buildGen walk) (pyLower q)).take 50000 :=
    buscarPorNombreIndexado_eq walk (pyLower q)
  refine ⟨heq, fun hlen a => ?_⟩
  rw [heq, List.take_of_length_le hlen]
  unfold coincidenciasNombre posicionesCoincidentes
  rw [List.mem_filterMap]
  constructor
  · rintro ⟨i, himem, hgi⟩
    obtain ⟨hir, hp⟩ := List.mem_filter.mp himem
    rw [List.mem_range] at hir
    have ha : a = (buildGen walk).todos_los_archivos[i] := by
      rw [List.get?_eq_getElem?, List.getElem?_eq_getElem hir] at hgi
      exact (Option.some.inj hgi).symm
    subst ha
    refine ⟨i, hir, rfl, ?_⟩
    have hgetD : (buildGen walk).todos_los_archivos.getD i archivoDefault =
        (buildGen walk).todos_los_archivos[i] := by
      rw [List.getD_eq_getElem?_getD, List.getElem?_eq_getElem hir]
      rfl
    rw [hgetD] at hp
    exact hp
  · rintro ⟨i, hi, hai, hpa⟩
    refine ⟨i, ?_, ?_⟩
    · apply List.mem_filter.mpr
      refine ⟨List.mem_range.mpr hi, ?_⟩
      have hgetD : (buildGen walk).todos_los_archivos.getD i archivoDefault =
          (buildGen walk).todos_los_archivos[i] := by
        rw [List.getD_eq_getElem?_getD, List.getElem?_eq_getElem hi]
        rfl
      rw [hgetD, hai]
      exact hpa
    · rw [List.get?_eq_getElem?, List.getElem?_eq_getElem hi, hai]

/-- Witness for the amended C4 on Scenario 1: query `"report"` returns the
capped matching list, concretely the two records `Report.PDF` and
`report.txt`. -/
theorem claim_C4_witness :
    busquedaNombre (buildGen walkEjemplo) "report" =
      (coincidenciasNombre (buildGen walkEjemplo) (pyLower "report")).take 50000 ∧
    busquedaNombre (buildGen walkEjemplo) "report" =
      [⟨"Report.PDF", joinPath "E:" "Report.PDF", ".pdf"⟩,
       ⟨"report.txt", joinPath "E:" "report.txt", ".txt"⟩] := by
  refine ⟨(claim_C4_amended walkEjemplo "report" (by decide)).1, ?_⟩
  decide

/-- **C10.** For every non-empty query, the Name-mode result is the list
of matching records in ascending insertion (walk-order) position —
`sorted(indices_encontrados)` — truncated to the first 50000 even when
more records match. -/
theorem claim_C10 (walk : List (String × List String)) (q : String)
    (hq : q ≠ "") :
    (busquedaNombre (buildGen walk) q).length ≤ 50000 ∧
    busquedaNombre (buildGen walk) q =
      (coincidenciasNombre (buildGen walk) (pyLower q)).take 50000 ∧
    List.Sorted (· < ·) (posicionesCoincidentes (buildGen walk) (pyLower q)) := by
  have heq : busquedaNombre (buildGen walk) q =
      (coincidenciasNombre (buildGen walk) (pyLower q)).take 50000 :=
    buscarPorNombreIndexado_eq walk (pyLower q)
  refine ⟨?_, heq, ?_⟩
  · rw [heq]
    exact List.length_take_le 50000 _
  · unfold posicionesCoincidentes
    exact (List.pairwise_lt_range _).filter _

/-- Witness for C10 on Scenario 1 with query `"Port"`. -/
theorem claim_C10_witness :
    (busquedaNombre (buildGen walkEjemplo) "Port").length ≤ 50000 ∧
    busquedaNombre (buildGen walkEjemplo) "Port" =
      (coincidenciasNombre (buildGen walkEjemplo) (pyLower "Port")).take 50000 ∧
    List.Sorted (· < ·) (posicionesCoincidentes (buildGen walkEjemplo) (pyLower "Port")) :=
  claim_C10 walkEjemplo "Port" (by decide)

/-! ## Search history -/

theorem listaLe_total : ∀ a b : List Char, listaLe a b = true ∨ listaLe b a = true := by
  intro a
  induction a with
  | nil =>
    intro b
    left
    rfl
  | cons x xs ih =>
    intro b
    cases b with
    | nil =>
      right
      rfl
    | cons y ys =>
      by_cases h1 : x.toNat < y.toNat
      · left
        simp [listaLe, h1]
      · by_cases h2 : y.toNat < x.toNat
        · right
          simp [listaLe, h2]
        · rcases ih ys with h | h
          · left
            simp [listaLe, h1, h2, h]
          · right
            simp [listaLe, h1, h2, h]

theorem listaLe_trans : ∀ a b c : List Char,
    listaLe a b = true → listaLe b c = true → listaLe a c = true := by
  intro a
  induction a with
  | nil =>
    intro b c _ _
    rfl
  | cons x xs ih =>
    intro b c hab hbc
    cases b with
    | nil => simp [listaLe] at hab
    | cons y ys =>
      cases c with
      | nil => simp [listaLe] at hbc
      | cons z zs =>
        simp only [listaLe] at hab hbc ⊢
        by_cases hxy : x.toNat < y.toNat
        · by_cases hyz : y.toNat < z.toNat
          · rw [if_pos (by omega : x.toNat < z.toNat)]
          · by_cases hzy : z.toNat < y.toNat
            · simp [if_neg hyz, if_pos hzy] at hbc
            · rw [if_pos (by omega : x.toNat < z.toNat)]
        · by_cases hyx : y.toNat < x.toNat
          · simp [if_neg hxy, if_pos hyx] at hab
          · rw [if_neg hxy, if_neg hyx] at hab
            by_cases hyz : y.toNat < z.toNat
            · rw [if_pos (by omega : x.toNat < z.toNat)]
            · by_cases hzy : z.toNat < y.toNat
              · simp [if_neg hyz, if_pos hzy] at hbc
              · rw [if_neg hyz, if_neg hzy] at hbc
                rw [if_neg (by omega : ¬x.toNat < z.toNat),
                  if_neg (by omega : ¬z.toNat < x.toNat)]
                exact ih ys zs hab hbc

instance : IsTotal String ordenHistorial :=
  ⟨fun a b => by
    unfold ordenHistorial pyLe
    rcases listaLe_total (pyLower a).toList (pyLower b).toList with h | h
    · exact Or.inl h
    · exact Or.inr h⟩

instance : IsTrans String ordenHistorial :=
  ⟨fun a b c hab hbc => by
    unfold ordenHistorial pyLe at hab hbc ⊢
    exact listaLe_trans _ _ _ hab hbc⟩

theorem ordenarLista_inv (l : List String) (hnd : l.Nodup) (hlen : l.length ≤ 100) :
    (ordenarLista l).Nodup ∧ List.Sorted ordenHistorial (ordenarLista l) ∧
      (ordenarLista l).length ≤ 100 := by
  refine ⟨?_, ?_, ?_⟩
  · exact (List.perm_insertionSort ordenHistorial l).nodup_iff.mpr hnd
  · exact List.sorted_insertionSort ordenHistorial l
  · rw [ordenarLista, (List.perm_insertionSort ordenHistorial l).length_eq]
    exact hlen

theorem agregarHistorial_inv (hist : List String) (t : String)
    (hnd : hist.Nodup) (hs : List.Sorted ordenHistorial hist)
    (hlen : hist.length ≤ 100) :
    (agregarHistorial hist t).Nodup ∧
      List.Sorted ordenHistorial (agregarHistorial hist t) ∧
      (agregarHistorial hist t).length ≤ 100 := by
  unfold agregarHistorial
  by_cases hvac : pyStrip t = ""
  · rw [if_pos hvac]
    exact ⟨hnd, hs, hlen⟩
  · rw [if_neg hvac]
    dsimp only
    have hcore : ∀ h1 : List String, h1.Nodup → pyStrip t ∉ h1 → h1.length ≤ 100 →
        (ordenarLista
            (if MAX_BUSQUEDAS < (h1 ++ [pyStrip t]).length then
              (h1 ++ [pyStrip t]).drop ((h1 ++ [pyStrip t]).length - MAX_BUSQUEDAS)
            else h1 ++ [pyStrip t])).Nodup ∧
          List.Sorted ordenHistorial
            (ordenarLista
              (if MAX_BUSQUEDAS < (h1 ++ [pyStrip t]).length then
                (h1 ++ [pyStrip t]).drop ((h1 ++ [pyStrip t]).length - MAX_BUSQUEDAS)
              else h1 ++ [pyStrip t])) ∧
          (ordenarLista
            (if MAX_BUSQUEDAS < (h1 ++ [pyStrip t]).length then
              (h1 ++ [pyStrip t]).drop ((h1 ++ [pyStrip t]).length - MAX_BUSQUEDAS)
            else h1 ++ [pyStrip t])).length ≤ 100 := by
      intro h1 h1nd h1nm h1len
      have h2nd : (h1 ++ [pyStrip t]).Nodup := by
        rw [List.nodup_append]
        refine ⟨h1nd, List.nodup_singleton _, ?_⟩
        intro a ha hb
        rw [List.mem_singleton] at hb
        subst hb
        exact h1nm ha
      by_cases hcap : MAX_BUSQUEDAS < (h1 ++ [pyStrip t]).length
      · rw [if_pos hcap]
        refine ordenarLista_inv _ (h2nd.sublist (List.drop_sublist _ _)) ?_
        rw [List.length_drop]
        unfold MAX_BUSQUEDAS at hcap ⊢
        omega
      · rw [if_neg hcap]
        refine ordenarLista_inv _ h2nd ?_
        unfold MAX_BUSQUEDAS at hcap
        omega
    refine hcore (if pyStrip t ∈ hist then hist.erase (pyStrip t) else hist) ?_ ?_ ?_
    · split
      · exact hnd.erase _
      · exact hnd
    · split
      · next _ =>
        intro hc
        exact absurd (hnd.mem_erase_iff.mp hc).1 (by simp)
      · next h => exact h
    · split
      · exact Nat.le_trans (hist.length_erase_le _) hlen
      · exact hlen

theorem aplicarHistorial_inv_aux :
    ∀ (ts start : List String), start.Nodup →
      List.Sorted ordenHistorial start → start.length ≤ 100 →
      (ts.foldl agregarHistorial start).Nodup ∧
        List.Sorted ordenHistorial (ts.foldl agregarHistorial start) ∧
        (ts.foldl agregarHistorial start).length ≤ 100 := by
  intro ts
  induction ts with
  | nil =>
    intro start h1 h2 h3
    exact ⟨h1, h2, h3⟩
  | cons t resto ih =>
    intro start h1 h2 h3
    rw [List.foldl_cons]
    obtain ⟨n1, s1, l1⟩ := agregarHistorial_inv start t h1 h2 h3
    exact ih _ n1 s1 l1

theorem agregarHistorial_lleno (hist : List String) (t : String)
    (hlen : hist.length = 100) (hstrip : pyStrip t = t) (hne : t ≠ "")
    (hnm : t ∉ hist) :
    agregarHistorial hist t = ordenarLista (hist.drop 1 ++ [t]) := by
  unfold agregarHistorial
  rw [hstrip, if_neg hne]
  dsimp only
  rw [if_neg hnm]
  have hlen2 : (hist ++ [t]).length = 101 := by simp [hlen]
  rw [if_pos (by rw [hlen2]; unfold MAX_BUSQUEDAS; omega), hlen2]
  show ordenarLista ((hist ++ [t]).drop (101 - MAX_BUSQUEDAS)) = _
  unfold MAX_BUSQUEDAS
  rw [show (101 : Nat) - 100 = 1 from rfl]
  rw [List.drop_append_of_le_length (by omega)]

set_option maxRecDepth 20000 in
set_option maxHeartbeats 8000000 in
/-- **C9, counterexample.** Submitting `"z"` first and then
`"a00" … "a99"` overflows the 100-entry cap on the 101st submission; the
claim says the oldest entry (`"z"`) is evicted, but the code sorts the
store alphabetically after every add and `historial[-100:]` therefore
drops the alphabetically-first entry: `"a00"` is evicted while `"z"`
survives. -/
theorem claim_C9_counterexample :
    "z" ∈ aplicarHistorial terminos101 ∧
    "a00" ∉ aplicarHistorial terminos101 ∧
    (aplicarHistorial terminos101).length = 100 := by
  refine ⟨?_, ?_, ?_⟩ <;> decide

/-- **C9, amended.** After every sequence of `agregar` calls the stored
history has no duplicate entries, is sorted case-insensitively, and holds
at most 100 entries; when adding a new entry to a full store, the evicted
entry is the first of the case-insensitively sorted store (the
alphabetically smallest), not the oldest. -/
theorem claim_C9_amended :
    (∀ ts : List String,
      (aplicarHistorial ts).Nodup ∧
        List.Sorted ordenHistorial (aplicarHistorial ts) ∧
        (aplicarHistorial ts).length ≤ 100) ∧
    (∀ (hist : List String) (t : String),
      hist.length = 100 → pyStrip t = t → t ≠ "" → t ∉ hist →
      agregarHistorial hist t = ordenarLista (hist.drop 1 ++ [t])) := by
  constructor
  · intro ts
    exact aplicarHistorial_inv_aux ts [] List.nodup_nil List.sorted_nil (by simp)
  · intro hist t h1 h2 h3 h4
    exact agregarHistorial_lleno hist t h1 h2 h3 h4

/-- Witness for the amended C9: the invariant on a small submission
sequence, and head-eviction on a concrete full store. -/
theorem claim_C9_witness :
    ((aplicarHistorial ["Beta", "alfa", "Beta"]).Nodup ∧
      List.Sorted ordenHistorial (aplicarHistorial ["Beta", "alfa", "Beta"]) ∧
      (aplicarHistorial ["Beta", "alfa", "Beta"]).length ≤ 100) ∧
    agregarHistorial ((List.range 100).map etiqueta) "zz" =
      ordenarLista (((List.range 100).map etiqueta).drop 1 ++ ["zz"]) := by
  constructor
  · exact claim_C9_amended.1 ["Beta", "alfa", "Beta"]
  · exact claim_C9_amended.2 ((List.range 100).map etiqueta) "zz"
      (by decide) (by decide) (by decide) (by decide)
